import Mathlib

/-!
# Telegram-Anti-Revoke: `Source/Core/Utils.cpp`

A shallow embedding of the string helpers (`Text::SubReplace`,
`Text::SplitByFlag`) and of the memory-patching primitives
(`Memory::ReadProcess`, `Memory::ForceOperate`, `Memory::MakeCall`,
`Memory::MakeJmp`), followed by the properties proved about them.

Conventions.
* Machine integers are natural numbers reduced explicitly modulo `2 ^ w`.
* A byte buffer (`std::vector<uint8_t>`) is a `List Nat`; a `std::string` is a
  `List Char`.
* Stateful code threads an explicit state; a call that may throw a C++
  exception returns an `Outcome`.
* Operating-system calls (`VirtualProtect`, `ReadProcessMemory`) are
  parameters of the embedded functions; a page-granular model of them,
  following their documented behaviour, is provided for concrete runs.
-/

set_option autoImplicit false

/-! # Part I: the embedding -/

/-- A `std::string`: a sequence of `char`. -/
abbrev Str := List Char

/-- Why an embedded call did not return a value. -/
inductive Fault where
  /-- `std::out_of_range` was thrown (`substr` or `replace` with a position past the end). -/
  | out_of_range
  /-- The loop was still running when the iteration budget ran out. -/
  | fuel
deriving DecidableEq

deriving instance DecidableEq for Except

namespace Text

/-- The scan behind `std::string::find`: `findFrom Needle rest i` returns the index of
the first position at which `Needle` starts, where `rest` is the part of the haystack
beginning at index `i`; `none` is `std::string::npos`. -/
def findFrom (Needle : Str) : Str → Nat → Option Nat
  | [], i => if Needle.isPrefixOf [] then some i else none
  | c :: cs, i => if Needle.isPrefixOf (c :: cs) then some i else findFrom Needle cs (i + 1)

/-- `Haystack.find(Needle, Pos)`: the lowest index `≥ Pos` at which `Needle` occurs in
`Haystack`, or `none` (`npos`) when there is none or `Pos` is past the end. -/
def find (Haystack Needle : Str) (Pos : Nat) : Option Nat :=
  if Pos > Haystack.length then none else findFrom Needle (Haystack.drop Pos) Pos

/-- `s.substr(Pos, Len)`; `Len = none` is the default argument `npos` (to the end of the
string). Throws `std::out_of_range` when `Pos > s.size()`. -/
def substr (s : Str) (Pos : Nat) (Len : Option Nat) : Except Fault Str :=
  if Pos > s.length then Except.error Fault.out_of_range
  else match Len with
    | some n => Except.ok ((s.drop Pos).take n)
    | none => Except.ok (s.drop Pos)

/-- `s.replace(Pos, Len, New)`: the characters `[Pos, Pos + Len)` of `s` (clipped to the
end of `s`) are replaced by `New`. Throws `std::out_of_range` when `Pos > s.size()`. -/
def replace (s : Str) (Pos Len : Nat) (New : Str) : Except Fault Str :=
  if Pos > s.length then Except.error Fault.out_of_range
  else Except.ok (s.take Pos ++ New ++ s.drop (Pos + Len))

/-- The `while (true)` loop of `Text::SubReplace`, run for at most `fuel` replacements:
look for `Target` from the start of `Result`; stop when there is none, else replace the
occurrence found by `New` and go round again. -/
def SubReplaceLoop (Target New : Str) : Nat → Str → Except Fault Str
  | 0, Result =>
    match find Result Target 0 with
    | none => Except.ok Result
    | some _ => Except.error Fault.fuel
  | fuel + 1, Result =>
    match find Result Target 0 with
    | none => Except.ok Result
    | some Pos =>
      match replace Result Pos Target.length New with
      | Except.ok Result1 => SubReplaceLoop Target New fuel Result1
      | Except.error e => Except.error e

/-- `Text::SubReplace(Source, Target, New)` with an iteration budget. -/
def SubReplace (fuel : Nat) (Source Target New : Str) : Except Fault Str :=
  SubReplaceLoop Target New fuel Source

/-- The `while (EndPos != npos)` loop of `Text::SplitByFlag`, run for at most `fuel`
iterations; it returns the pieces collected and the final `BeginPos`. -/
def SplitByFlagLoop (Source Flag : Str) :
    Nat → List Str → Nat → Option Nat → Except Fault (List Str × Nat)
  | _, Result, BeginPos, none => Except.ok (Result, BeginPos)
  | 0, _, _, some _ => Except.error Fault.fuel
  | fuel + 1, Result, BeginPos, some EndPos =>
    match substr Source BeginPos (some (EndPos - BeginPos)) with
    | Except.error e => Except.error e
    | Except.ok piece =>
      SplitByFlagLoop Source Flag fuel (Result ++ [piece]) (EndPos + Flag.length)
        (find Source Flag (EndPos + Flag.length))

/-- `Text::SplitByFlag(Source, Flag)` with an iteration budget. -/
def SplitByFlag (fuel : Nat) (Source Flag : Str) : Except Fault (List Str) :=
  match SplitByFlagLoop Source Flag fuel [] 0 (find Source Flag 0) with
  | Except.error e => Except.error e
  | Except.ok (Result, BeginPos) =>
    if BeginPos ≠ Source.length then
      match substr Source BeginPos none with
      | Except.error e => Except.error e
      | Except.ok piece => Except.ok (Result ++ [piece])
    else Except.ok Result

/-- The pieces joined in order with `Flag` between consecutive pieces. -/
def joinWith (Flag : Str) (pieces : List Str) : Str := List.intercalate Flag pieces

/-- The pieces written one after the other, each followed by `Flag`. -/
def terminatedBy (Flag : Str) (pieces : List Str) : Str :=
  (pieces.map (fun p => p ++ Flag)).flatten

/-- The piece `p` is cut at the first separator: in `p` followed by `Flag`, no occurrence of
`Flag` starts inside `p`, so the `Flag` that ends the piece is the first one from the
start of the piece. -/
def cutAtFirst (Flag p : Str) : Prop :=
  ∀ j, j < p.length → ¬ Flag <+: (p ++ Flag).drop j

end Text

namespace Memory

/-! ## Opcode synthesis: `MakeCall`, `MakeJmp` -/

/-- The cast `(uintptr_t)p` for a pointer width of `bits` bits. -/
def toUintptr (bits : Nat) (p : Nat) : Nat := p % 2 ^ bits

/-- Subtraction of two `uintptr_t` values: unsigned, wrapping modulo `2 ^ bits`. -/
def uintptrSub (bits : Nat) (a b : Nat) : Nat :=
  (((a : Int) - (b : Int)) % (2 : Int) ^ bits).toNat

/-- The cast `(uint32_t)x`: keeps the low 32 bits. -/
def toUint32 (x : Nat) : Nat := x % 2 ^ 32

/-- The four bytes of a 32-bit value in little-endian order (x86 byte order). -/
def le32 (v : Nat) : List Nat :=
  [v % 256, v / 256 % 256, v / 65536 % 256, v / 16777216 % 256]

/-- The store `*(uint32_t *)(buf.data() + off) = v`: overwrites the four bytes of
`buf` starting at offset `off` with the little-endian bytes of `v`. -/
def storeU32 (buf : List Nat) (off : Nat) (v : Nat) : List Nat :=
  buf.take off ++ le32 v ++ buf.drop (off + 4)

/-- `Memory::MakeCall`: `{0xE8, 0, 0, 0, 0}` with the 32-bit value
`(uint32_t)((uintptr_t)CallAddress - (uintptr_t)HookAddress - 5)` stored at offset 1. -/
def MakeCall (bits : Nat) (HookAddress CallAddress : Nat) : List Nat :=
  let MakeCode : List Nat := [0xE8, 0x00, 0x00, 0x00, 0x00]
  storeU32 MakeCode 1
    (toUint32 (uintptrSub bits
      (uintptrSub bits (toUintptr bits CallAddress) (toUintptr bits HookAddress)) 5))

/-- `Memory::MakeJmp`: `{0xE9, 0, 0, 0, 0}` with the 32-bit value
`(uint32_t)((uintptr_t)JmpAddress - (uintptr_t)HookAddress - 5)` stored at offset 1. -/
def MakeJmp (bits : Nat) (HookAddress JmpAddress : Nat) : List Nat :=
  let MakeCode : List Nat := [0xE9, 0x00, 0x00, 0x00, 0x00]
  storeU32 MakeCode 1
    (toUint32 (uintptrSub bits
      (uintptrSub bits (toUintptr bits JmpAddress) (toUintptr bits HookAddress)) 5))

/-- The exact (unbounded) displacement `TargetAddress - HookAddress - 5`. -/
def displacement (HookAddress TargetAddress : Nat) : Int :=
  (TargetAddress : Int) - (HookAddress : Int) - 5

/-! ## Calls that change the machine state -/

/-- How a call that may throw a C++ exception ends: it returns a value, or an exception
leaves it; either way the machine is left in some state. -/
inductive Outcome (α σ : Type) where
  | ret (value : α) (state : σ)
  | throw (state : σ)

/-- The machine state in which a call ends. -/
def Outcome.state {α σ : Type} : Outcome α σ → σ
  | Outcome.ret _ s => s
  | Outcome.throw s => s

/-- The value a call returns, when it returns. -/
def Outcome.value? {α σ : Type} : Outcome α σ → Option α
  | Outcome.ret v _ => some v
  | Outcome.throw _ => none

/-- What one call of the system function `VirtualProtect` gives back: its `BOOL` result
(non-zero on success), the value it left in `*lpflOldProtect`, and the machine state. -/
structure ProtectResult (σ : Type) where
  ret : Nat
  old : Nat
  state : σ

/-- The protection constant `PAGE_EXECUTE_READWRITE`. -/
def PAGE_EXECUTE_READWRITE : Nat := 0x40

/-- `Memory::ForceOperate(Address, Size, FnCallback)`. The system call `VirtualProtect` is
a parameter. If the first call fails the function returns `false` at once; otherwise it
runs the callback (an exception thrown by it leaves the function) and returns the result
of the second `VirtualProtect`, which is passed the saved protection, converted to
`bool`. -/
def ForceOperate {σ : Type} (VirtualProtect : σ → Nat → Nat → Nat → ProtectResult σ)
    (Address Size : Nat) (FnCallback : σ → Outcome Unit σ) (s : σ) : Outcome Bool σ :=
  let r1 := VirtualProtect s Address Size PAGE_EXECUTE_READWRITE
  if r1.ret = 0 then Outcome.ret false r1.state
  else
    let SaveProtect := r1.old
    match FnCallback r1.state with
    | Outcome.throw s2 => Outcome.throw s2
    | Outcome.ret _ s2 =>
      let r2 := VirtualProtect s2 Address Size SaveProtect
      Outcome.ret (r2.ret != 0) r2.state

/-- What one call of the system function `ReadProcessMemory` gives back: its `BOOL`
result, the count it left in `*lpNumberOfBytesRead`, and the machine state. -/
structure ReadResult (σ : Type) where
  ret : Nat
  bytesRead : Nat
  state : σ

/-- `Memory::ReadProcess(hProcess, TargetAddress, LocalBuffer, Size)`. The system call
`ReadProcessMemory` is a parameter. Its `BOOL` result is ignored and the local `Bytes`
goes out of scope; the function returns nothing. -/
def ReadProcess {σ : Type} (ReadProcessMemory : σ → Nat → Nat → Nat → Nat → ReadResult σ)
    (hProcess TargetAddress LocalBuffer Size : Nat) (s : σ) : σ :=
  (ReadProcessMemory s hProcess TargetAddress LocalBuffer Size).state

/-! ## Recording the calls made -/

/-- A call made by `ForceOperate`: a protection change with its arguments, or the
callback. -/
inductive Call where
  | protect (Address Size NewProtect : Nat)
  | callback
deriving DecidableEq

/-- A `VirtualProtect` that also appends each call to a log kept beside the state. -/
def logProtect {σ : Type} (VirtualProtect : σ → Nat → Nat → Nat → ProtectResult σ) :
    σ × List Call → Nat → Nat → Nat → ProtectResult (σ × List Call) :=
  fun s Address Size NewProtect =>
    let r := VirtualProtect s.1 Address Size NewProtect
    { ret := r.ret, old := r.old,
      state := (r.state, s.2 ++ [Call.protect Address Size NewProtect]) }

/-- A callback that also appends its invocation to the log. -/
def logCallback {σ : Type} (FnCallback : σ → Outcome Unit σ) :
    σ × List Call → Outcome Unit (σ × List Call) :=
  fun s =>
    match FnCallback s.1 with
    | Outcome.ret v t => Outcome.ret v (t, s.2 ++ [Call.callback])
    | Outcome.throw t => Outcome.throw (t, s.2 ++ [Call.callback])

/-! ## A page-granular machine

The system calls are not part of the repository. The model below follows their
documented behaviour: protection is kept per page; `VirtualProtect` fails, changing
nothing, when the size is zero or some page of the range is not committed, and otherwise
sets every page of the range to the new protection and reports the previous protection
of the first page of the range. -/

/-- The machine: the bytes of the local address space, the protection of each committed
page (`none` for a page that is not committed), the open process handles, and the bytes
readable through each handle. -/
structure Machine where
  mem : Nat → Nat
  prot : Nat → Option Nat
  handles : List Nat
  remote : Nat → Nat → Option Nat

/-- The page size. -/
def PAGE_SIZE : Nat := 4096

/-- The number of the page holding address `a`. -/
def pageOf (a : Nat) : Nat := a / PAGE_SIZE

/-- The pages holding at least one byte of `[Address, Address + Size)`, for `Size > 0`. -/
def pagesOf (Address Size : Nat) : List Nat :=
  List.range' (pageOf Address) (pageOf (Address + Size - 1) - pageOf Address + 1)

/-- The system call `VirtualProtect(lpAddress, dwSize, flNewProtect, lpflOldProtect)` on
the page-granular machine. -/
def VirtualProtect (m : Machine) (Address Size NewProtect : Nat) : ProtectResult Machine :=
  if Size = 0 then { ret := 0, old := 0, state := m }
  else if (pagesOf Address Size).all (fun p => (m.prot p).isSome) then
    { ret := 1,
      old := (m.prot (pageOf Address)).getD 0,
      state :=
        { m with
          prot := fun p => if p ∈ pagesOf Address Size then some NewProtect else m.prot p } }
  else { ret := 0, old := 0, state := m }

/-- Whether a protection value permits writing: `PAGE_READWRITE`, `PAGE_WRITECOPY`,
`PAGE_EXECUTE_READWRITE`, `PAGE_EXECUTE_WRITECOPY`. -/
def writable (p : Nat) : Bool := p == 0x04 || p == 0x08 || p == 0x40 || p == 0x80

/-- A mutation that copies the bytes `Src` to address `Dest` (`memcpy(Dest, Src, n)`):
the write goes through when every page touched is committed and writable, and is an
access violation, which leaves the caller, otherwise. -/
def copyBytes (Dest : Nat) (Src : List Nat) (m : Machine) : Outcome Unit Machine :=
  if Src.length = 0 then Outcome.ret () m
  else if (pagesOf Dest Src.length).all
      (fun p => match m.prot p with
        | some f => writable f
        | none => false) then
    Outcome.ret ()
      { m with
        mem := fun a =>
          if Dest ≤ a ∧ a < Dest + Src.length then Src.getD (a - Dest) 0 else m.mem a }
  else Outcome.throw m

/-- The `n` bytes of local memory starting at address `a`. -/
def readBytes (m : Machine) (a n : Nat) : List Nat :=
  (List.range n).map (fun i => m.mem (a + i))

/-- The number of leading bytes of `[Base, Base + Size)` readable through handle `h`. -/
def transferable (m : Machine) (h Base Size : Nat) : Nat :=
  ((List.range Size).takeWhile (fun i => (m.remote h (Base + i)).isSome)).length

/-- The system call `ReadProcessMemory(hProcess, lpBaseAddress, lpBuffer, nSize,
lpNumberOfBytesRead)` on the machine: with a handle that is not open nothing is copied;
otherwise the readable leading bytes of the source range are copied to the buffer and
counted, and the call succeeds when that is the whole range. The handle table is not
touched. -/
def ReadProcessMemory (m : Machine) (hProcess BaseAddress Buffer Size : Nat) :
    ReadResult Machine :=
  if hProcess ∈ m.handles then
    let k := transferable m hProcess BaseAddress Size
    { ret := if k = Size then 1 else 0,
      bytesRead := k,
      state :=
        { m with
          mem := fun a =>
            if Buffer ≤ a ∧ a < Buffer + k then
              (m.remote hProcess (BaseAddress + (a - Buffer))).getD 0
            else m.mem a } }
  else { ret := 0, bytesRead := 0, state := m }

/-! ## Example inputs -/

/-- An example machine: page 1 is committed with `PAGE_EXECUTE_READ` (`0x20`), page 2 with
`PAGE_READONLY` (`0x02`), no other page is committed; every byte of local memory holds
`0xCC`; handle 7 is open and through it the three bytes at addresses `0x500 .. 0x502`
are readable. -/
def exampleMachine : Machine :=
  { mem := fun _ => 0xCC,
    prot := fun p => if p = 1 then some 0x20 else if p = 2 then some 0x02 else none,
    handles := [7],
    remote := fun h a => if h = 7 ∧ 0x500 ≤ a ∧ a < 0x503 then some (a - 0x500 + 0x41) else none }

/-- An example mutation that throws at once, leaving the machine as it found it. -/
def throwingCallback : Machine → Outcome Unit Machine := fun m => Outcome.throw m

/-- The example machine with pages 1 and 2 both `PAGE_EXECUTE_READ` (`0x20`). -/
def uniformMachine : Machine :=
  { exampleMachine with prot := fun p => if p = 1 ∨ p = 2 then some 0x20 else none }

/-- An example mutation that writes the bytes `1 2 3 4` at `0x1FFE` and then sets the
protection of that region to `PAGE_READWRITE` (`0x04`) itself. -/
def writeThenReprotect : Machine → Outcome Unit Machine :=
  fun m =>
    match copyBytes 0x1FFE [1, 2, 3, 4] m with
    | Outcome.ret _ t => Outcome.ret () (VirtualProtect t 0x1FFE 4 0x04).state
    | Outcome.throw t => Outcome.throw t

/-- An example mutation that itself changes the protection of the region at `0x1000` to
`PAGE_READWRITE` (`0x04`) and returns. -/
def reprotectingCallback : Machine → Outcome Unit Machine :=
  fun m => Outcome.ret () (VirtualProtect m 0x1000 5 0x04).state

end Memory

/-! # Part II: the properties -/

namespace Memory

/-! ### Arithmetic of the displacement -/

/-- The value stored by `MakeCall`/`MakeJmp` is the displacement modulo `2 ^ 32`. -/
theorem stored_value (bits : Nat) (hbits : 32 ≤ bits) (H T : Nat) :
    toUint32 (uintptrSub bits (uintptrSub bits (toUintptr bits T) (toUintptr bits H)) 5)
      = (displacement H T % 2 ^ 32).toNat := by
  obtain ⟨k, rfl⟩ : ∃ k, bits = 32 + k := ⟨bits - 32, by omega⟩
  have hdvd : (4294967296 : Int) ∣ (2 : Int) ^ (32 + k) := ⟨2 ^ k, by rw [pow_add]; norm_num⟩
  have hpos : (0 : Int) < 2 ^ (32 + k) := by positivity
  have hpos32 : (0 : Int) < 2 ^ 32 := by norm_num
  unfold toUint32 uintptrSub toUintptr displacement
  apply Int.ofNat.inj
  simp only [Int.ofNat_eq_coe]
  rw [Int.toNat_of_nonneg (Int.emod_nonneg _ hpos32.ne')]
  push_cast
  rw [Int.toNat_of_nonneg (Int.emod_nonneg _ hpos.ne')]
  rw [Int.toNat_of_nonneg (Int.emod_nonneg _ hpos.ne')]
  rw [Int.emod_emod_of_dvd _ hdvd]
  have e1 : ((T : Int) % 2 ^ (32 + k) - (H : Int) % 2 ^ (32 + k)) % 2 ^ (32 + k)
      = ((T : Int) - H) % 2 ^ (32 + k) := by
    rw [← Int.sub_emod]
  rw [e1, Int.sub_emod, Int.emod_emod_of_dvd _ hdvd, ← Int.sub_emod]

theorem MakeCall_eq (bits H T : Nat) :
    MakeCall bits H T = 0xE8 :: le32 (toUint32 (uintptrSub bits
      (uintptrSub bits (toUintptr bits T) (toUintptr bits H)) 5)) := by
  simp [MakeCall, storeU32, le32]

theorem MakeJmp_eq (bits H T : Nat) :
    MakeJmp bits H T = 0xE9 :: le32 (toUint32 (uintptrSub bits
      (uintptrSub bits (toUintptr bits T) (toUintptr bits H)) 5)) := by
  simp [MakeJmp, storeU32, le32]

/-- C2. With no range precondition, bytes 1..4 of `MakeCall` and of `MakeJmp` are the
little-endian encoding of `(TargetAddress - HookAddress - 5) mod 2 ^ 32`; a displacement
of `0x7FFFFFFF` is encoded `FF FF FF 7F` and a displacement of `-0x80000000` is encoded
`00 00 00 80`. -/
theorem MakeCall_MakeJmp_wraparound (bits : Nat) (hbits : 32 ≤ bits)
    (HookAddress TargetAddress : Nat) :
    ((MakeCall bits HookAddress TargetAddress).drop 1
        = le32 (displacement HookAddress TargetAddress % 2 ^ 32).toNat
      ∧ (MakeJmp bits HookAddress TargetAddress).drop 1
        = le32 (displacement HookAddress TargetAddress % 2 ^ 32).toNat)
    ∧ (displacement HookAddress TargetAddress = 0x7FFFFFFF →
        (MakeCall bits HookAddress TargetAddress).drop 1 = [0xFF, 0xFF, 0xFF, 0x7F]
        ∧ (MakeJmp bits HookAddress TargetAddress).drop 1 = [0xFF, 0xFF, 0xFF, 0x7F])
    ∧ (displacement HookAddress TargetAddress = -0x80000000 →
        (MakeCall bits HookAddress TargetAddress).drop 1 = [0x00, 0x00, 0x00, 0x80]
        ∧ (MakeJmp bits HookAddress TargetAddress).drop 1 = [0x00, 0x00, 0x00, 0x80]) := by
  rw [MakeCall_eq, MakeJmp_eq, stored_value bits hbits]
  refine ⟨⟨by simp, by simp⟩, ?_, ?_⟩
  · intro hd
    rw [hd]
    simp [le32]
  · intro hd
    rw [hd]
    simp [le32]

theorem MakeCall_MakeJmp_wraparound_witness :
    (MakeCall 32 0 0x80000004).drop 1 = [0xFF, 0xFF, 0xFF, 0x7F]
      ∧ (MakeJmp 32 0x80000000 5).drop 1 = [0x00, 0x00, 0x00, 0x80]
      ∧ (MakeCall 32 0 4).drop 1 = le32 (displacement 0 4 % 2 ^ 32).toNat :=
  ⟨((MakeCall_MakeJmp_wraparound 32 (by decide) 0 0x80000004).2.1 (by decide)).1,
   ((MakeCall_MakeJmp_wraparound 32 (by decide) 0x80000000 5).2.2 (by decide)).2,
   (MakeCall_MakeJmp_wraparound 32 (by decide) 0 4).1.1⟩

/-- A 32-bit near CALL from address 0 to address 4: displacement `-1`. -/
theorem MakeCall_backward_example : MakeCall 32 0 4 = [0xE8, 0xFF, 0xFF, 0xFF, 0xFF] := by decide
/-- A near CALL between two 64-bit addresses `0x1000` apart. -/
theorem MakeCall_wide_pointer_example : MakeCall 64 0x7FF600001000 0x7FF600002000 = [0xE8, 0xFB, 0x0F, 0, 0] := by decide

end Memory

namespace Text

/-! ## `std::string::find` -/

theorem findFrom_some (Needle : Str) (l : Str) (i j : Nat)
    (h : findFrom Needle l i = some j) :
    ∃ k, j = i + k ∧ k ≤ l.length ∧ Needle <+: l.drop k := by
  induction l generalizing i with
  | nil =>
    simp only [findFrom] at h
    split_ifs at h with hp
    refine ⟨0, by simpa using h.symm, by simp, ?_⟩
    simpa using List.isPrefixOf_iff_prefix.mp hp
  | cons c cs ih =>
    simp only [findFrom] at h
    split_ifs at h with hp
    · refine ⟨0, by simpa using h.symm, by simp, ?_⟩
      simpa using List.isPrefixOf_iff_prefix.mp hp
    · obtain ⟨k, hj, hk, hpre⟩ := ih (i + 1) h
      exact ⟨k + 1, by omega, by simpa using hk, by simpa using hpre⟩

theorem findFrom_none (Needle : Str) (l : Str) (i : Nat)
    (h : findFrom Needle l i = none) : ¬ Needle <:+: l := by
  induction l generalizing i with
  | nil =>
    simp only [findFrom] at h
    split_ifs at h with hp
    intro hin
    apply hp
    have : Needle = [] := by simpa using hin
    subst this
    rfl
  | cons c cs ih =>
    simp only [findFrom] at h
    split_ifs at h with hp
    rw [List.infix_cons_iff]
    rintro (hpre | hin)
    · exact hp (List.isPrefixOf_iff_prefix.mpr hpre)
    · exact ih (i + 1) h hin

/-- A successful `find` returns a position at or after `Pos` where `Needle` really
starts, and the occurrence lies inside the haystack. -/
theorem find_some (Haystack Needle : Str) (Pos j : Nat)
    (h : find Haystack Needle Pos = some j) :
    Pos ≤ j ∧ Needle <+: Haystack.drop j ∧ j + Needle.length ≤ Haystack.length := by
  unfold find at h
  split_ifs at h with hpos
  obtain ⟨k, hj, hk, hpre⟩ := findFrom_some _ _ _ _ h
  rw [List.drop_drop] at hpre
  have hjk : Pos + k = j := hj.symm
  have hpre' : Needle <+: List.drop j Haystack := by
    rw [hjk] at hpre
    exact hpre
  refine ⟨by omega, hpre', ?_⟩
  have hlen := hpre'.length_le
  simp only [List.length_drop] at hlen hk
  omega

theorem find_zero_none (Haystack Needle : Str) (h : find Haystack Needle 0 = none) :
    ¬ Needle <:+: Haystack := by
  unfold find at h
  simp only [Nat.not_lt_zero, gt_iff_lt, if_false, List.drop_zero] at h
  exact findFrom_none _ _ _ h

theorem find_zero_some (Haystack Needle : Str) (j : Nat)
    (h : find Haystack Needle 0 = some j) : Needle <:+: Haystack := by
  obtain ⟨_, hpre, _⟩ := find_some _ _ _ _ h
  exact hpre.isInfix.trans (List.drop_suffix j Haystack).isInfix

theorem findFrom_min (Needle : Str) (l : Str) (i j : Nat)
    (h : findFrom Needle l i = some j) :
    ∀ k, i + k < j → ¬ Needle <+: l.drop k := by
  induction l generalizing i with
  | nil =>
    simp only [findFrom] at h
    split_ifs at h with hp
    intro k hk
    have : i = j := by simpa using h
    omega
  | cons c cs ih =>
    simp only [findFrom] at h
    split_ifs at h with hp
    · intro k hk
      have : i = j := by simpa using h
      omega
    · intro k hk
      cases k with
      | zero =>
        intro hpre
        exact hp (List.isPrefixOf_iff_prefix.mpr (by simpa using hpre))
      | succ k =>
        have := ih (i + 1) h k (by omega)
        simpa using this

/-- A successful `find` returns the first occurrence at or after `Pos`: `Needle` starts
at no position between `Pos` and the position returned. -/
theorem find_min (Haystack Needle : Str) (Pos e : Nat)
    (h : find Haystack Needle Pos = some e) :
    ∀ j, Pos ≤ j → j < e → ¬ Needle <+: Haystack.drop j := by
  unfold find at h
  split_ifs at h with hpos
  intro j hj hje
  have := findFrom_min _ _ _ _ h (j - Pos) (by omega)
  rw [List.drop_drop] at this
  have e1 : Pos + (j - Pos) = j := by omega
  rwa [e1] at this

theorem find_none (Haystack Needle : Str) (Pos : Nat) (hPos : Pos ≤ Haystack.length)
    (h : find Haystack Needle Pos = none) : ¬ Needle <:+: Haystack.drop Pos := by
  unfold find at h
  rw [if_neg (Nat.not_lt.mpr hPos)] at h
  exact findFrom_none _ _ _ h

/-! ## `Text::SubReplace` -/

theorem SubReplaceLoop_of_none (Target New : Str) (fuel : Nat) (Result : Str)
    (h : find Result Target 0 = none) :
    SubReplaceLoop Target New fuel Result = Except.ok Result := by
  cases fuel <;> simp [SubReplaceLoop, h]

theorem SubReplaceLoop_terminates (Target New : Str) (hlen : New.length < Target.length)
    (n : Nat) : ∀ Result : Str, Result.length ≤ n →
      ∃ r, (∀ fuel, Result.length ≤ fuel → SubReplaceLoop Target New fuel Result = Except.ok r)
        ∧ find r Target 0 = none
        ∧ (find Result Target 0 = none → r = Result) := by
  induction n with
  | zero =>
    intro Result hR
    have hnil : Result = [] := List.length_eq_zero.mp (by omega)
    subst hnil
    have hfind : find ([] : Str) Target 0 = none := by
      cases hf : find ([] : Str) Target 0 with
      | none => rfl
      | some j =>
        have := (find_some _ _ _ _ hf).2.2
        simp only [List.length_nil] at this
        omega
    exact ⟨[], fun fuel _ => SubReplaceLoop_of_none _ _ _ _ hfind, hfind, fun _ => rfl⟩
  | succ n ih =>
    intro Result hR
    cases hf : find Result Target 0 with
    | none => exact ⟨Result, fun fuel _ => SubReplaceLoop_of_none _ _ _ _ hf, hf, fun _ => rfl⟩
    | some Pos =>
      obtain ⟨_, _, hin⟩ := find_some _ _ _ _ hf
      have hPos : ¬ Pos > Result.length := by omega
      have hrep : replace Result Pos Target.length New
          = Except.ok (Result.take Pos ++ New ++ Result.drop (Pos + Target.length)) := by
        simp [replace, hPos]
      have hshort : (Result.take Pos ++ New ++ Result.drop (Pos + Target.length)).length
          < Result.length := by
        simp only [List.length_append, List.length_take, List.length_drop]
        omega
      obtain ⟨r, hr, hnone, _⟩ :=
        ih (Result.take Pos ++ New ++ Result.drop (Pos + Target.length)) (by omega)
      refine ⟨r, ?_, hnone, by simp⟩
      intro fuel hfuel
      obtain ⟨f, rfl⟩ : ∃ f, fuel = f + 1 := ⟨fuel - 1, by omega⟩
      simp only [SubReplaceLoop, hf, hrep]
      exact hr f (by omega)

/-- C10. For a `Target` (necessarily non-empty) and a `New` strictly shorter than `Target`,
`Text::SubReplace` terminates (any budget of at least `|Source|` replacements gives the
same returned string), its result contains no occurrence of `Target`, and when `Source`
contains no occurrence of `Target` the result is `Source`. -/
theorem SubReplace_terminates_and_clears (Source Target New : Str)
    (hlen : New.length < Target.length) :
    ∃ r, (∀ fuel, Source.length ≤ fuel → SubReplace fuel Source Target New = Except.ok r)
      ∧ ¬ Target <:+: r
      ∧ (¬ Target <:+: Source → r = Source) := by
  obtain ⟨r, hr, hnone, hsame⟩ :=
    SubReplaceLoop_terminates Target New hlen Source.length Source le_rfl
  refine ⟨r, hr, find_zero_none _ _ hnone, ?_⟩
  intro hno
  apply hsame
  cases hf : find Source Target 0 with
  | none => rfl
  | some j => exact absurd (find_zero_some _ _ _ hf) hno

theorem SubReplace_terminates_and_clears_witness :
    ∃ r, (∀ fuel, "aabbb".toList.length ≤ fuel →
            SubReplace fuel "aabbb".toList "ab".toList "a".toList = Except.ok r)
      ∧ ¬ "ab".toList <:+: r
      ∧ (¬ "ab".toList <:+: "aabbb".toList → r = "aabbb".toList) :=
  SubReplace_terminates_and_clears "aabbb".toList "ab".toList "a".toList (by decide)

/-- Replacing `ab` by `a` in `aabbb`: each replacement creates the next occurrence. -/
theorem SubReplace_cascade_example : SubReplace 5 "aabbb".toList "ab".toList "a".toList = Except.ok "aa".toList := by decide

/-! ## `Text::SplitByFlag` -/

theorem terminatedBy_snoc (Flag : Str) (R : List Str) (x : Str) :
    terminatedBy Flag (R ++ [x]) = terminatedBy Flag R ++ x ++ Flag := by
  simp [terminatedBy, List.append_assoc]

theorem joinWith_snoc (Flag : Str) (R : List Str) (x : Str) :
    joinWith Flag (R ++ [x]) = terminatedBy Flag R ++ x := by
  induction R with
  | nil => simp [joinWith, terminatedBy, List.intercalate]
  | cons p R ih =>
    cases R with
    | nil => simp [joinWith, terminatedBy, List.intercalate]
    | cons q R =>
      have hstep : joinWith Flag (p :: (q :: R ++ [x]))
          = p ++ Flag ++ joinWith Flag (q :: R ++ [x]) := by
        simp [joinWith, List.intercalate]
      have hterm : terminatedBy Flag (p :: q :: R)
          = p ++ Flag ++ terminatedBy Flag (q :: R) := by
        simp [terminatedBy]
      rw [List.cons_append, hstep, ih, hterm]
      simp [List.append_assoc]

theorem SplitByFlagLoop_of_none (Source Flag : Str) (fuel : Nat) (Result : List Str)
    (BeginPos : Nat) :
    SplitByFlagLoop Source Flag fuel Result BeginPos none = Except.ok (Result, BeginPos) := by
  cases fuel <;> simp [SplitByFlagLoop]

theorem cutAtFirst_not_infix (Flag p : Str) (hF : Flag ≠ []) (h : cutAtFirst Flag p) :
    ¬ Flag <:+: p := by
  rintro ⟨a, b, hab⟩
  have hFl : 0 < Flag.length := List.length_pos.mpr hF
  have hlen : a.length + Flag.length + b.length = p.length := by
    rw [← hab]
    simp only [List.length_append]
  apply h a.length (by omega)
  rw [← hab]
  refine ⟨b ++ Flag, ?_⟩
  simp [List.append_assoc]

/-- The piece cut by one round of the loop is cut at the first separator. -/
theorem cutAtFirst_piece (Source Flag : Str) (BeginPos e : Nat)
    (hf : find Source Flag BeginPos = some e) :
    cutAtFirst Flag ((Source.drop BeginPos).take (e - BeginPos)) := by
  obtain ⟨h1, hpre, h3⟩ := find_some _ _ _ _ hf
  obtain ⟨t, ht⟩ := hpre
  have hlen : ((Source.drop BeginPos).take (e - BeginPos)).length = e - BeginPos := by
    simp only [List.length_take, List.length_drop]
    omega
  have hdecomp : Source.drop BeginPos
      = ((Source.drop BeginPos).take (e - BeginPos) ++ Flag) ++ t := by
    have hd : (Source.drop BeginPos).drop (e - BeginPos) = Source.drop e := by
      rw [List.drop_drop, Nat.add_sub_cancel' h1]
    calc Source.drop BeginPos
        = (Source.drop BeginPos).take (e - BeginPos)
            ++ (Source.drop BeginPos).drop (e - BeginPos) := (List.take_append_drop _ _).symm
      _ = (Source.drop BeginPos).take (e - BeginPos) ++ (Flag ++ t) := by rw [hd, ht]
      _ = ((Source.drop BeginPos).take (e - BeginPos) ++ Flag) ++ t := by
          rw [List.append_assoc]
  intro j hj hpj
  rw [hlen] at hj
  apply find_min _ _ _ _ hf (BeginPos + j) (by omega) (by omega)
  have hdrop : Source.drop (BeginPos + j)
      = ((Source.drop BeginPos).take (e - BeginPos) ++ Flag).drop j ++ t := by
    rw [← List.drop_drop, hdecomp, List.drop_append_of_le_length]
    · rw [← hdecomp]
    · simp only [List.length_append, hlen]
      omega
  rw [hdrop]
  exact hpj.trans (List.prefix_append _ _)

/-- Loop invariant of `SplitByFlag`: the part of `Source` before `BeginPos` is the pieces
collected so far, each followed by `Flag`, and each of them is cut at the first separator.
The loop ends within `|Source| - BeginPos` iterations, at a position after which `Flag`
does not occur. -/
theorem SplitByFlagLoop_spec (Source Flag : Str) (hF : Flag ≠ []) (n : Nat) :
    ∀ (Result : List Str) (BeginPos : Nat),
      Source.length - BeginPos ≤ n → BeginPos ≤ Source.length →
      Source.take BeginPos = terminatedBy Flag Result →
      (∀ p ∈ Result, cutAtFirst Flag p) →
      ∃ R B, (∀ fuel, n ≤ fuel →
                SplitByFlagLoop Source Flag fuel Result BeginPos (find Source Flag BeginPos)
                  = Except.ok (R, B))
        ∧ B ≤ Source.length ∧ Source.take B = terminatedBy Flag R
        ∧ (∀ p ∈ R, cutAtFirst Flag p)
        ∧ ¬ Flag <:+: Source.drop B := by
  have hFl : 0 < Flag.length := List.length_pos.mpr hF
  induction n with
  | zero =>
    intro Result BeginPos hn hB hinv hcut
    cases hf : find Source Flag BeginPos with
    | none =>
      exact ⟨Result, BeginPos, fun fuel _ => SplitByFlagLoop_of_none _ _ _ _ _, hB, hinv,
        hcut, find_none _ _ _ hB hf⟩
    | some e =>
      obtain ⟨h1, _, h3⟩ := find_some _ _ _ _ hf
      omega
  | succ m ih =>
    intro Result BeginPos hn hB hinv hcut
    cases hf : find Source Flag BeginPos with
    | none =>
      exact ⟨Result, BeginPos, fun fuel _ => SplitByFlagLoop_of_none _ _ _ _ _, hB, hinv,
        hcut, find_none _ _ _ hB hf⟩
    | some e =>
      obtain ⟨h1, hpre, h3⟩ := find_some _ _ _ _ hf
      have hsub : substr Source BeginPos (some (e - BeginPos))
          = Except.ok ((Source.drop BeginPos).take (e - BeginPos)) := by
        simp [substr, Nat.not_lt.mpr hB]
      have htake : Source.take (e + Flag.length)
          = terminatedBy Flag (Result ++ [(Source.drop BeginPos).take (e - BeginPos)]) := by
        rw [terminatedBy_snoc, ← hinv, List.take_add]
        have e1 : Source.take e
            = Source.take BeginPos ++ (Source.drop BeginPos).take (e - BeginPos) := by
          have := List.take_add Source BeginPos (e - BeginPos)
          rwa [Nat.add_sub_cancel' h1] at this
        have e2 : (Source.drop e).take Flag.length = Flag :=
          (List.prefix_iff_eq_take.mp hpre).symm
        rw [e1, e2]
      have hcut2 : ∀ p ∈ Result ++ [(Source.drop BeginPos).take (e - BeginPos)],
          cutAtFirst Flag p := by
        intro p hp
        rcases List.mem_append.mp hp with hp | hp
        · exact hcut p hp
        · rw [List.mem_singleton.mp hp]
          exact cutAtFirst_piece _ _ _ _ hf
      obtain ⟨R, B, hrun, hBle, hBinv, hRcut, hrest⟩ :=
        ih (Result ++ [(Source.drop BeginPos).take (e - BeginPos)]) (e + Flag.length)
          (by omega) h3 htake hcut2
      refine ⟨R, B, ?_, hBle, hBinv, hRcut, hrest⟩
      intro fuel hfuel
      obtain ⟨f, rfl⟩ : ∃ f, fuel = f + 1 := ⟨fuel - 1, by omega⟩
      simp only [SplitByFlagLoop, hsub]
      exact hrun f (by omega)

/-- C9. For a non-empty `Flag`, `Source` is `Flag`-delimited pieces `cut ++ [rest]`: it is
these pieces joined with `Flag`, every piece of `cut` (empty ones included) is cut at the
first `Flag` from its start and so contains no `Flag`, and `rest` contains no `Flag`.
`Text::SplitByFlag` terminates (any budget of at least `|Source|` iterations gives the
same result) and returns all of these pieces in order, leaving out only `rest` when
`rest` is empty. Joining the returned pieces with `Flag` gives a string `R` with
`Source = R` or `Source = R ++ Flag`. -/
theorem SplitByFlag_delimited_pieces (Source Flag : Str) (hF : Flag ≠ []) :
    ∃ (cut : List Str) (rest : Str),
      Source = joinWith Flag (cut ++ [rest])
      ∧ (∀ p ∈ cut, cutAtFirst Flag p)
      ∧ (∀ p ∈ cut, ¬ Flag <:+: p)
      ∧ ¬ Flag <:+: rest
      ∧ (∀ fuel, Source.length ≤ fuel →
          SplitByFlag fuel Source Flag
            = Except.ok (if rest = [] then cut else cut ++ [rest]))
      ∧ (Source = joinWith Flag (if rest = [] then cut else cut ++ [rest])
          ∨ Source = joinWith Flag (if rest = [] then cut else cut ++ [rest]) ++ Flag) := by
  obtain ⟨R, B, hrun, hBle, hBinv, hRcut, hrest⟩ :=
    SplitByFlagLoop_spec Source Flag hF Source.length [] 0 (by omega) (by omega)
      (by simp [terminatedBy]) (by simp)
  have hsrc : Source = joinWith Flag (R ++ [Source.drop B]) := by
    rw [joinWith_snoc, ← hBinv, List.take_append_drop]
  refine ⟨R, Source.drop B, hsrc, hRcut,
    fun p hp => cutAtFirst_not_infix Flag p hF (hRcut p hp), hrest, ?_, ?_⟩
  · intro fuel hfuel
    by_cases hB : B = Source.length
    · have hnil : Source.drop B = [] := by rw [hB, List.drop_length]
      simp [SplitByFlag, hrun fuel hfuel, hB]
    · have hne : Source.drop B ≠ [] := by
        intro h
        have := congrArg List.length h
        simp only [List.length_drop, List.length_nil] at this
        omega
      have hsub : substr Source B none = Except.ok (Source.drop B) := by
        simp [substr, Nat.not_lt.mpr hBle]
      simp [SplitByFlag, hrun fuel hfuel, hB, hsub, hne]
  · by_cases hnil : Source.drop B = []
    · rw [if_pos hnil]
      have hterm : Source = terminatedBy Flag R := by
        have := hsrc
        rw [joinWith_snoc, hnil, List.append_nil] at this
        exact this
      rcases List.eq_nil_or_concat R with hR | ⟨L, b, hL⟩
      · left
        rw [hterm, hR]
        simp [terminatedBy, joinWith, List.intercalate]
      · right
        rw [List.concat_eq_append] at hL
        rw [hL, joinWith_snoc, ← terminatedBy_snoc, ← hL]
        exact hterm
    · rw [if_neg hnil]
      exact Or.inl hsrc

theorem SplitByFlag_delimited_pieces_witness :
    ∃ (cut : List Str) (rest : Str),
      "a,,b,".toList = joinWith ",".toList (cut ++ [rest])
      ∧ (∀ p ∈ cut, cutAtFirst ",".toList p)
      ∧ (∀ p ∈ cut, ¬ ",".toList <:+: p)
      ∧ ¬ ",".toList <:+: rest
      ∧ (∀ fuel, "a,,b,".toList.length ≤ fuel →
          SplitByFlag fuel "a,,b,".toList ",".toList
            = Except.ok (if rest = [] then cut else cut ++ [rest]))
      ∧ ("a,,b,".toList = joinWith ",".toList (if rest = [] then cut else cut ++ [rest])
          ∨ "a,,b,".toList
              = joinWith ",".toList (if rest = [] then cut else cut ++ [rest]) ++ ",".toList) :=
  SplitByFlag_delimited_pieces "a,,b,".toList ",".toList (by decide)

/-- One trailing separator: the empty last piece is not returned, the inner empty piece is. -/
theorem SplitByFlag_trailing_example : SplitByFlag 5 "a,,b,".toList ",".toList
    = Except.ok ["a".toList, [], "b".toList] := by decide
/-- Two trailing separators: only the very last empty piece is not returned. -/
theorem SplitByFlag_double_trailing_example : SplitByFlag 5 "a,,b,,".toList ",".toList
    = Except.ok ["a".toList, [], "b".toList, []] := by decide
/-- The empty string splits into no piece at all. -/
theorem SplitByFlag_empty_source_example : SplitByFlag 0 [] ",".toList = Except.ok [] := by decide

end Text

namespace Memory

/-! ## `Memory::ForceOperate`: result and order of the calls -/

/-- C3. When the mutation returns normally, `ForceOperate` returns, and it returns `true`
exactly when both protection changes succeed (the elevation to read+write+execute and
the restoration of the captured value); it returns `false` when either fails. -/
theorem ForceOperate_true_iff_both_succeed {σ : Type}
    (VP : σ → Nat → Nat → Nat → ProtectResult σ) (Address Size : Nat)
    (FnCallback : σ → Outcome Unit σ) (s s2 : σ)
    (hcb : FnCallback (VP s Address Size PAGE_EXECUTE_READWRITE).state = Outcome.ret () s2) :
    (∃ b, (ForceOperate VP Address Size FnCallback s).value? = some b)
    ∧ ((ForceOperate VP Address Size FnCallback s).value? = some true ↔
        ((VP s Address Size PAGE_EXECUTE_READWRITE).ret ≠ 0
          ∧ (VP s2 Address Size (VP s Address Size PAGE_EXECUTE_READWRITE).old).ret ≠ 0))
    ∧ (((VP s Address Size PAGE_EXECUTE_READWRITE).ret = 0
          ∨ (VP s2 Address Size (VP s Address Size PAGE_EXECUTE_READWRITE).old).ret = 0) →
        (ForceOperate VP Address Size FnCallback s).value? = some false) := by
  by_cases h1 : (VP s Address Size PAGE_EXECUTE_READWRITE).ret = 0
  · simp [ForceOperate, h1, Outcome.value?]
  · by_cases h2 : (VP s2 Address Size (VP s Address Size PAGE_EXECUTE_READWRITE).old).ret = 0
    · simp [ForceOperate, h1, hcb, h2, Outcome.value?]
    · simp [ForceOperate, h1, hcb, h2, Outcome.value?]

/-- C4. When the elevation fails, and a failed protection change leaves the machine as
it was, `ForceOperate` returns `false`, the only call it makes is the failed elevation
(the callback is not invoked and no restoration is attempted), and the machine state is
the one before the call. -/
theorem ForceOperate_elevation_failure {σ : Type}
    (VP : σ → Nat → Nat → Nat → ProtectResult σ) (Address Size : Nat)
    (FnCallback : σ → Outcome Unit σ) (s : σ) (log : List Call)
    (hfail : (VP s Address Size PAGE_EXECUTE_READWRITE).ret = 0)
    (hframe : (VP s Address Size PAGE_EXECUTE_READWRITE).state = s) :
    ForceOperate (logProtect VP) Address Size (logCallback FnCallback) (s, log)
      = Outcome.ret false (s, log ++ [Call.protect Address Size PAGE_EXECUTE_READWRITE])
    ∧ ForceOperate VP Address Size FnCallback s = Outcome.ret false s := by
  constructor
  · simp [ForceOperate, logProtect, hfail, hframe]
  · simp [ForceOperate, hfail, hframe]

/-- C8 (amended). When the elevation succeeds and the mutation returns normally, whatever
state it leaves (also one with changed protection), the calls made are, in this order,
the elevation, the callback, and the restoration with the protection value captured by
the elevation. -/
theorem ForceOperate_call_order {σ : Type}
    (VP : σ → Nat → Nat → Nat → ProtectResult σ) (Address Size : Nat)
    (FnCallback : σ → Outcome Unit σ) (s s2 : σ) (log : List Call)
    (hok : (VP s Address Size PAGE_EXECUTE_READWRITE).ret ≠ 0)
    (hcb : FnCallback (VP s Address Size PAGE_EXECUTE_READWRITE).state = Outcome.ret () s2) :
    ForceOperate (logProtect VP) Address Size (logCallback FnCallback) (s, log)
      = Outcome.ret
          ((VP s2 Address Size (VP s Address Size PAGE_EXECUTE_READWRITE).old).ret != 0)
          ((VP s2 Address Size (VP s Address Size PAGE_EXECUTE_READWRITE).old).state,
            log ++ [Call.protect Address Size PAGE_EXECUTE_READWRITE, Call.callback,
              Call.protect Address Size (VP s Address Size PAGE_EXECUTE_READWRITE).old]) := by
  simp [ForceOperate, logProtect, logCallback, hok, hcb]

/-! ## The page-granular machine -/

theorem mem_pagesOf (Address Size p : Nat) (hS : 0 < Size) :
    p ∈ pagesOf Address Size ↔ pageOf Address ≤ p ∧ p ≤ pageOf (Address + Size - 1) := by
  have hle : pageOf Address ≤ pageOf (Address + Size - 1) := by
    unfold pageOf
    exact Nat.div_le_div_right (by omega)
  unfold pagesOf
  rw [List.mem_range'_1]
  omega

theorem first_page_mem (Address Size : Nat) (hS : 0 < Size) :
    pageOf Address ∈ pagesOf Address Size := by
  rw [mem_pagesOf _ _ _ hS]
  refine ⟨le_rfl, ?_⟩
  unfold pageOf
  exact Nat.div_le_div_right (by omega)

theorem VirtualProtect_success (m : Machine) (Address Size NewProtect : Nat)
    (h : (VirtualProtect m Address Size NewProtect).ret ≠ 0) :
    Size ≠ 0 ∧ ∀ p ∈ pagesOf Address Size, (m.prot p).isSome = true := by
  unfold VirtualProtect at h
  split_ifs at h with h1 h2
  · exact absurd rfl h
  · exact ⟨h1, by simpa using h2⟩
  · exact absurd rfl h

theorem VirtualProtect_ok (m : Machine) (Address Size NewProtect : Nat) (hS : Size ≠ 0)
    (hall : ∀ p ∈ pagesOf Address Size, (m.prot p).isSome = true) :
    VirtualProtect m Address Size NewProtect
      = { ret := 1,
          old := (m.prot (pageOf Address)).getD 0,
          state :=
            { m with
              prot := fun p =>
                if p ∈ pagesOf Address Size then some NewProtect else m.prot p } } := by
  have hall2 : (pagesOf Address Size).all (fun p => (m.prot p).isSome) = true := by
    simpa using hall
  unfold VirtualProtect
  rw [if_neg hS, if_pos hall2]

theorem VirtualProtect_failure_state (m : Machine) (Address Size NewProtect : Nat)
    (h : (VirtualProtect m Address Size NewProtect).ret = 0) :
    (VirtualProtect m Address Size NewProtect).state = m := by
  unfold VirtualProtect at h ⊢
  split_ifs at h ⊢ <;> rfl

theorem copyBytes_ok (m : Machine) (Dest : Nat) (Src : List Nat) (hn : Src.length ≠ 0)
    (hw : ∀ p ∈ pagesOf Dest Src.length, ∃ f, m.prot p = some f ∧ writable f = true) :
    copyBytes Dest Src m
      = Outcome.ret ()
          { m with
            mem := fun a =>
              if Dest ≤ a ∧ a < Dest + Src.length then Src.getD (a - Dest) 0 else m.mem a } := by
  have hall : (pagesOf Dest Src.length).all
      (fun p => match m.prot p with
        | some f => writable f
        | none => false) = true := by
    rw [List.all_eq_true]
    intro p hp
    obtain ⟨f, hf, hwf⟩ := hw p hp
    simp only [hf]
    exact hwf
  unfold copyBytes
  rw [if_neg hn, if_pos hall]

theorem readBytes_of_mem (m : Machine) (Dest : Nat) (Src : List Nat)
    (h : ∀ a, Dest ≤ a ∧ a < Dest + Src.length → m.mem a = Src.getD (a - Dest) 0) :
    readBytes m Dest Src.length = Src := by
  apply List.ext_getElem
  · simp [readBytes]
  · intro i h1 h2
    simp only [readBytes, List.getElem_map, List.getElem_range]
    rw [h (Dest + i) ⟨by omega, by omega⟩]
    simp [List.getD_eq_getElem?_getD, List.getElem?_eq_getElem h2]

/-- One run of `ForceOperate` in which the elevation succeeds and the callback returns. -/
theorem ForceOperate_run {σ : Type} (VP : σ → Nat → Nat → Nat → ProtectResult σ)
    (Address Size : Nat) (FnCallback : σ → Outcome Unit σ) (s s2 : σ)
    (r1 r2 : ProtectResult σ)
    (h1 : VP s Address Size PAGE_EXECUTE_READWRITE = r1) (hret : r1.ret ≠ 0)
    (h2 : FnCallback r1.state = Outcome.ret () s2)
    (h3 : VP s2 Address Size r1.old = r2) :
    ForceOperate VP Address Size FnCallback s = Outcome.ret (r2.ret != 0) r2.state := by
  subst h1 h3
  simp [ForceOperate, hret, h2]

/-- Installing a byte pattern through `ForceOperate` on the page-granular machine: when
the elevation succeeds the call returns `true`, the region holds the pattern, memory
outside the region is untouched, and every page of the region ends with the protection
the first page had before the call, pages outside keeping theirs. -/
theorem ForceOperate_copyBytes (m : Machine) (Address : Nat) (pattern : List Nat)
    (hok : (VirtualProtect m Address pattern.length PAGE_EXECUTE_READWRITE).ret ≠ 0) :
    ∃ m2, ForceOperate VirtualProtect Address pattern.length (copyBytes Address pattern) m
        = Outcome.ret true m2
      ∧ readBytes m2 Address pattern.length = pattern
      ∧ (∀ a, ¬ (Address ≤ a ∧ a < Address + pattern.length) → m2.mem a = m.mem a)
      ∧ (∀ p, m2.prot p = if p ∈ pagesOf Address pattern.length
            then some ((m.prot (pageOf Address)).getD 0) else m.prot p) := by
  obtain ⟨hS, hall⟩ := VirtualProtect_success _ _ _ _ hok
  have hw : writable PAGE_EXECUTE_READWRITE = true := by decide
  have hrun := ForceOperate_run VirtualProtect Address pattern.length
    (copyBytes Address pattern) m _ _ _
    (VirtualProtect_ok m Address pattern.length PAGE_EXECUTE_READWRITE hS hall)
    (by simp)
    (copyBytes_ok _ Address pattern hS (by
      intro p hp
      exact ⟨PAGE_EXECUTE_READWRITE, by simp [hp], hw⟩))
    (VirtualProtect_ok _ Address pattern.length _ hS (by
      intro p hp
      simp [hp]))
  refine ⟨_, hrun, ?_, ?_, ?_⟩
  · apply readBytes_of_mem
    intro a ha
    simp [ha]
  · intro a ha
    simp [ha]
  · intro p
    by_cases hp : p ∈ pagesOf Address pattern.length <;> simp [hp]

/-! ## `Memory::ForceOperate` with a byte-writing mutation -/

/-- C5 (counterexample). A region of two pages with different protections: both
protection changes succeed and the region holds the pattern, but after the call the
second page carries the protection the first page had, not its own. -/
theorem ForceOperate_mixed_protection_not_restored :
    (ForceOperate VirtualProtect 0x1FFE 4 (copyBytes 0x1FFE [1, 2, 3, 4])
        exampleMachine).value? = some true
    ∧ readBytes (ForceOperate VirtualProtect 0x1FFE 4 (copyBytes 0x1FFE [1, 2, 3, 4])
        exampleMachine).state 0x1FFE 4 = [1, 2, 3, 4]
    ∧ 2 ∈ pagesOf 0x1FFE 4
    ∧ exampleMachine.prot 2 = some 0x02
    ∧ (ForceOperate VirtualProtect 0x1FFE 4 (copyBytes 0x1FFE [1, 2, 3, 4])
        exampleMachine).state.prot 2 = some 0x20 := by
  decide

/-- C5 (amended). For a region (`Size > 0` follows from the successful elevation) whose
pages all carry the same protection before the call, and every mutation: when the
elevation succeeds, the mutation returns leaving the byte pattern in the region
(whatever else it does, changing protections included) and the restoration succeeds,
`ForceOperate` returns `true`, the region holds exactly the pattern afterwards, and the
protection of every page of the region is the one before the call. -/
theorem ForceOperate_pattern_uniform_protection (m : Machine) (Address Size : Nat)
    (pattern : List Nat) (FnCallback : Machine → Outcome Unit Machine) (s2 : Machine)
    (hok : (VirtualProtect m Address Size PAGE_EXECUTE_READWRITE).ret ≠ 0)
    (hcb : FnCallback (VirtualProtect m Address Size PAGE_EXECUTE_READWRITE).state
      = Outcome.ret () s2)
    (hwrite : readBytes s2 Address Size = pattern)
    (hrestore : (VirtualProtect s2 Address Size
      (VirtualProtect m Address Size PAGE_EXECUTE_READWRITE).old).ret ≠ 0)
    (huni : ∀ p ∈ pagesOf Address Size, m.prot p = m.prot (pageOf Address)) :
    ∃ m2, ForceOperate VirtualProtect Address Size FnCallback m = Outcome.ret true m2
      ∧ readBytes m2 Address Size = pattern
      ∧ ∀ p ∈ pagesOf Address Size, m2.prot p = m.prot p := by
  obtain ⟨hS, hall⟩ := VirtualProtect_success _ _ _ _ hok
  obtain ⟨_, hall2⟩ := VirtualProtect_success _ _ _ _ hrestore
  have hold : (VirtualProtect m Address Size PAGE_EXECUTE_READWRITE).old
      = (m.prot (pageOf Address)).getD 0 := by
    rw [VirtualProtect_ok m Address Size PAGE_EXECUTE_READWRITE hS hall]
  have h3 := VirtualProtect_ok s2 Address Size
    (VirtualProtect m Address Size PAGE_EXECUTE_READWRITE).old hS hall2
  have hrun := ForceOperate_run VirtualProtect Address Size FnCallback m s2 _ _ rfl hok hcb h3
  refine ⟨_, hrun, ?_, ?_⟩
  · rw [← hwrite]
    rfl
  · intro p hp
    have hfirst := hall _ (first_page_mem Address Size (Nat.pos_of_ne_zero hS))
    simp only [if_pos hp, hold]
    rw [huni p hp]
    cases hq : m.prot (pageOf Address) with
    | none => simp [hq] at hfirst
    | some f => rfl

theorem ForceOperate_pattern_uniform_protection_witness :
    ∃ m2, ForceOperate VirtualProtect 0x1FFE 4 writeThenReprotect uniformMachine
        = Outcome.ret true m2
      ∧ readBytes m2 0x1FFE 4 = [1, 2, 3, 4]
      ∧ ∀ p ∈ pagesOf 0x1FFE 4, m2.prot p = uniformMachine.prot p :=
  ForceOperate_pattern_uniform_protection uniformMachine 0x1FFE 4 [1, 2, 3, 4]
    writeThenReprotect
    (writeThenReprotect
      (VirtualProtect uniformMachine 0x1FFE 4 PAGE_EXECUTE_READWRITE).state).state
    (by decide) rfl (by decide) (by decide) (by decide)

/-- With the mutation that writes the pattern and then sets the region to `PAGE_READWRITE`
itself, both pages of the region end with the `PAGE_EXECUTE_READ` they had. -/
theorem ForceOperate_writeThenReprotect_example :
    (ForceOperate VirtualProtect 0x1FFE 4 writeThenReprotect uniformMachine).value?
      = some true
    ∧ readBytes (ForceOperate VirtualProtect 0x1FFE 4 writeThenReprotect
        uniformMachine).state 0x1FFE 4 = [1, 2, 3, 4]
    ∧ (writeThenReprotect
        (VirtualProtect uniformMachine 0x1FFE 4 PAGE_EXECUTE_READWRITE).state).state.prot 2
        = some 0x04
    ∧ (ForceOperate VirtualProtect 0x1FFE 4 writeThenReprotect uniformMachine).state.prot 1
        = some 0x20
    ∧ (ForceOperate VirtualProtect 0x1FFE 4 writeThenReprotect uniformMachine).state.prot 2
        = some 0x20 := by
  decide

/-- C6. When `H - A - 5 = 0x10`, `MakeCall(A, H)` is exactly `E8 10 00 00 00`; installing it
through `ForceOperate(A, 5, mutation)`, the mutation copying that buffer to `A`, on a
state where the elevation succeeds, returns `true` and leaves exactly those 5 bytes at
`A`. -/
theorem ForceOperate_installs_MakeCall (bits : Nat) (hbits : 32 ≤ bits) (A H : Nat)
    (hd : displacement A H = 0x10) (m : Machine)
    (hok : (VirtualProtect m A 5 PAGE_EXECUTE_READWRITE).ret ≠ 0) :
    MakeCall bits A H = [0xE8, 0x10, 0x00, 0x00, 0x00]
    ∧ ∃ m2, ForceOperate VirtualProtect A 5 (copyBytes A (MakeCall bits A H)) m
          = Outcome.ret true m2
        ∧ readBytes m2 A 5 = [0xE8, 0x10, 0x00, 0x00, 0x00] := by
  have hcode : MakeCall bits A H = [0xE8, 0x10, 0x00, 0x00, 0x00] := by
    rw [MakeCall_eq, stored_value bits hbits, hd]
    simp [le32]
  refine ⟨hcode, ?_⟩
  rw [hcode]
  obtain ⟨m2, hrun, hread, _, _⟩ :=
    ForceOperate_copyBytes m A [0xE8, 0x10, 0x00, 0x00, 0x00] hok
  exact ⟨m2, hrun, hread⟩

theorem ForceOperate_installs_MakeCall_witness :
    MakeCall 32 0x1000 0x1015 = [0xE8, 0x10, 0x00, 0x00, 0x00]
    ∧ ∃ m2, ForceOperate VirtualProtect 0x1000 5 (copyBytes 0x1000 (MakeCall 32 0x1000 0x1015))
            exampleMachine
          = Outcome.ret true m2
        ∧ readBytes m2 0x1000 5 = [0xE8, 0x10, 0x00, 0x00, 0x00] :=
  ForceOperate_installs_MakeCall 32 (by decide) 0x1000 0x1015 (by decide) exampleMachine
    (by decide)

/-! ## Witnesses and the throwing mutation -/

theorem ForceOperate_true_iff_both_succeed_witness :
    ∃ b, (ForceOperate VirtualProtect 0x1000 5 (fun t => Outcome.ret () t)
      exampleMachine).value? = some b :=
  (ForceOperate_true_iff_both_succeed VirtualProtect 0x1000 5 (fun t => Outcome.ret () t)
    exampleMachine (VirtualProtect exampleMachine 0x1000 5 PAGE_EXECUTE_READWRITE).state
    rfl).1

theorem ForceOperate_elevation_failure_witness :
    ForceOperate (logProtect VirtualProtect) 0x5000 5 (logCallback (copyBytes 0x5000 [1]))
        (exampleMachine, [])
      = Outcome.ret false
          (exampleMachine, [] ++ [Call.protect 0x5000 5 PAGE_EXECUTE_READWRITE])
    ∧ ForceOperate VirtualProtect 0x5000 5 (copyBytes 0x5000 [1]) exampleMachine
      = Outcome.ret false exampleMachine :=
  ForceOperate_elevation_failure VirtualProtect 0x5000 5 (copyBytes 0x5000 [1])
    exampleMachine [] (by decide)
    (VirtualProtect_failure_state exampleMachine 0x5000 5 PAGE_EXECUTE_READWRITE (by decide))

/-- C8 (counterexample). With a mutation that throws, the exception leaves `ForceOperate`:
no value is returned, the calls made are the elevation and the callback only, no
restoration is made, and the page keeps the elevated protection `0x40` in place of the
`0x20` it had. -/
theorem ForceOperate_throw_skips_restoration :
    (ForceOperate (logProtect VirtualProtect) 0x1000 5 (logCallback throwingCallback)
        (exampleMachine, [])).value? = none
    ∧ (ForceOperate (logProtect VirtualProtect) 0x1000 5 (logCallback throwingCallback)
        (exampleMachine, [])).state.2
        = [Call.protect 0x1000 5 PAGE_EXECUTE_READWRITE, Call.callback]
    ∧ exampleMachine.prot 1 = some 0x20
    ∧ (ForceOperate (logProtect VirtualProtect) 0x1000 5 (logCallback throwingCallback)
        (exampleMachine, [])).state.1.prot 1 = some 0x40 := by
  decide

theorem ForceOperate_call_order_witness :
    ForceOperate (logProtect VirtualProtect) 0x1000 5 (logCallback reprotectingCallback)
        (exampleMachine, [])
      = Outcome.ret
          ((VirtualProtect
              (VirtualProtect
                (VirtualProtect exampleMachine 0x1000 5 PAGE_EXECUTE_READWRITE).state
                0x1000 5 0x04).state
              0x1000 5
              (VirtualProtect exampleMachine 0x1000 5 PAGE_EXECUTE_READWRITE).old).ret != 0)
          ((VirtualProtect
              (VirtualProtect
                (VirtualProtect exampleMachine 0x1000 5 PAGE_EXECUTE_READWRITE).state
                0x1000 5 0x04).state
              0x1000 5
              (VirtualProtect exampleMachine 0x1000 5 PAGE_EXECUTE_READWRITE).old).state,
            [] ++ [Call.protect 0x1000 5 PAGE_EXECUTE_READWRITE, Call.callback,
              Call.protect 0x1000 5
                (VirtualProtect exampleMachine 0x1000 5 PAGE_EXECUTE_READWRITE).old]) :=
  ForceOperate_call_order VirtualProtect 0x1000 5 reprotectingCallback exampleMachine
    (VirtualProtect
      (VirtualProtect exampleMachine 0x1000 5 PAGE_EXECUTE_READWRITE).state 0x1000 5 0x04).state
    [] (by decide) rfl

/-- A mutation that sets the page to `PAGE_READWRITE` itself: the restoration still
applies the value `0x20` captured by the elevation. -/
theorem ForceOperate_reprotecting_example :
    (ForceOperate (logProtect VirtualProtect) 0x1000 5 (logCallback reprotectingCallback)
        (exampleMachine, [])).state.2
      = [Call.protect 0x1000 5 0x40, Call.callback, Call.protect 0x1000 5 0x20]
    ∧ (ForceOperate (logProtect VirtualProtect) 0x1000 5 (logCallback reprotectingCallback)
        (exampleMachine, [])).state.1.prot 1 = some 0x20 := by
  decide

/-- The elevation on the example machine reports the protection of page 1. -/
theorem VirtualProtect_old_example : (VirtualProtect exampleMachine 0x1000 5 PAGE_EXECUTE_READWRITE).old = 0x20 := by
  decide
/-- The calls of one `ForceOperate` on the example machine with a mutation that does nothing. -/
theorem ForceOperate_log_example : (ForceOperate (logProtect VirtualProtect) 0x1000 5
    (logCallback (fun t => Outcome.ret () t)) (exampleMachine, [])).state.2
    = [Call.protect 0x1000 5 0x40, Call.callback, Call.protect 0x1000 5 0x20] := by decide

/-! ## `Memory::ReadProcess` -/

theorem transferable_le (m : Machine) (h Base Size : Nat) :
    transferable m h Base Size ≤ Size := by
  unfold transferable
  calc ((List.range Size).takeWhile (fun i => (m.remote h (Base + i)).isSome)).length
      ≤ (List.range Size).length := (List.takeWhile_sublist _).length_le
    _ = Size := List.length_range Size

/-- C7. `ReadProcess` always returns, with no value and no error signal, whatever the
underlying copy did: the state it leaves is exactly the state `ReadProcessMemory` left.
On the machine model, where the copy transfers the readable leading bytes (all, some or
none of the `Size` requested), every local byte outside the transferred part of the
buffer, the untransferred tail included, keeps its content, and the handle table (like
the protections and the remote memory) is unchanged. -/
theorem ReadProcess_best_effort (m : Machine) (hProcess TargetAddress LocalBuffer Size : Nat) :
    (∀ (σ : Type) (RPM : σ → Nat → Nat → Nat → Nat → ReadResult σ) (s : σ),
        ReadProcess RPM hProcess TargetAddress LocalBuffer Size s
          = (RPM s hProcess TargetAddress LocalBuffer Size).state)
    ∧ (ReadProcessMemory m hProcess TargetAddress LocalBuffer Size).bytesRead ≤ Size
    ∧ (∀ a, ¬ (LocalBuffer ≤ a ∧ a < LocalBuffer
            + (ReadProcessMemory m hProcess TargetAddress LocalBuffer Size).bytesRead) →
        (ReadProcess ReadProcessMemory hProcess TargetAddress LocalBuffer Size m).mem a
          = m.mem a)
    ∧ (ReadProcess ReadProcessMemory hProcess TargetAddress LocalBuffer Size m).handles
        = m.handles
    ∧ (ReadProcess ReadProcessMemory hProcess TargetAddress LocalBuffer Size m).prot = m.prot
    ∧ (ReadProcess ReadProcessMemory hProcess TargetAddress LocalBuffer Size m).remote
        = m.remote := by
  refine ⟨fun _ _ _ => rfl, ?_, ?_, ?_, ?_, ?_⟩
  · unfold ReadProcessMemory
    split_ifs
    · exact transferable_le _ _ _ _
    · exact Nat.zero_le _
  · intro a ha
    unfold ReadProcess ReadProcessMemory at *
    split_ifs at ha ⊢ with hh
    · simp only at ha ⊢
      rw [if_neg ha]
    · rfl
  all_goals
    unfold ReadProcess ReadProcessMemory
    split_ifs <;> rfl

/-- Five bytes requested, three readable: three are transferred. -/
theorem ReadProcessMemory_partial_count_example : (ReadProcessMemory exampleMachine 7 0x500 0x100 5).bytesRead = 3 := by decide
/-- The partial read is reported as a failure by the system call. -/
theorem ReadProcessMemory_partial_ret_example : (ReadProcessMemory exampleMachine 7 0x500 0x100 5).ret = 0 := by decide
/-- After the partial read the two untransferred bytes of the buffer keep their content. -/
theorem ReadProcess_partial_example : readBytes (ReadProcess ReadProcessMemory 7 0x500 0x100 5 exampleMachine) 0x100 5
    = [0x41, 0x42, 0x43, 0xCC, 0xCC] := by decide
/-- A full read of three bytes leaves the bytes after the buffer alone. -/
theorem ReadProcess_full_example : readBytes (ReadProcess ReadProcessMemory 7 0x500 0x100 3 exampleMachine) 0x100 5
    = [0x41, 0x42, 0x43, 0xCC, 0xCC] := by decide
/-- Nothing readable at the source: the buffer is untouched. -/
theorem ReadProcess_none_example : readBytes (ReadProcess ReadProcessMemory 7 0x600 0x100 5 exampleMachine) 0x100 5
    = [0xCC, 0xCC, 0xCC, 0xCC, 0xCC] := by decide
/-- A handle that is not open: the buffer is untouched. -/
theorem ReadProcess_bad_handle_example : readBytes (ReadProcess ReadProcessMemory 8 0x500 0x100 5 exampleMachine) 0x100 5
    = [0xCC, 0xCC, 0xCC, 0xCC, 0xCC] := by decide

end Memory
